import Mathlib

/-!
Verification of the aggregation layer of the translation-quality dashboard
script (src/Quality1.py).  The script manipulates a pandas DataFrame; here a
record set is a list of structures, one per spreadsheet row, and each data
operation of the script (filtering, time-bucket selection, grouped counts,
the heatmap pivot, free-text search, pagination, and the detail-view
rendering) is translated into an executable Lean function.  Missing
spreadsheet cells (pandas NaN) are modelled with Option; pandas drops rows
with a missing key from groupby and value_counts aggregations, and an
equality comparison against a missing cell is false, both of which the
translation mirrors.
-/

namespace Quality

/-- Calendar date, the payload of the LQE Date column.  Python compares
datetime.date values lexicographically by (year, month, day). -/
structure Date where
  year : Nat
  month : Nat
  day : Nat
  deriving DecidableEq, Repr

/-- Boolean date comparison, mirroring the comparisons of the date-range
filter (lines 146-147 of the script). -/
def Date.le (a b : Date) : Bool :=
  decide (a.year < b.year) ||
    (decide (a.year = b.year) &&
      (decide (a.month < b.month) ||
        (decide (a.month = b.month) && decide (a.day ≤ b.day))))

/-- One row of the spreadsheet.  Task ID and LQE Date are required on every
record; every other modelled column is optional, with none standing for a
missing or NaN cell.  Categorical columns that no claim touches directly
(Content Type, Product, Service Type, Clarification, ...) behave exactly
like the modelled ones and are covered by the generic grouping key of
groupedCount below. -/
structure Record where
  taskId : String
  date : Date
  owner : Option String := none
  factor : Option String := none
  category : Option String := none
  subCategory : Option String := none
  sourceText : Option String := none
  translatedText : Option String := none
  correctedTextShowEdits : Option String := none
  errorComment : Option String := none
  remark : Option String := none
  deriving DecidableEq, Repr

/-- Owner test of line 142: a pandas equality comparison of the Owner column
against the selected owner string.  A NaN cell compares unequal to every
string, so a record with a missing owner never matches. -/
def ownerMatches (r : Record) (sel : String) : Bool :=
  match r.owner with
  | some o => o == sel
  | none => false

/-- Filter operation of lines 140-147: copy the record set, restrict to the
selected owner unless the sentinel "All Owners" is chosen, then restrict to
the inclusive date range, skipping the range filter entirely when the
supplied range does not have exactly two bounds. -/
def applyFilters (rs : List Record) (selectedOwner : String)
    (dateRange : List Date) : List Record :=
  let afterOwner :=
    if selectedOwner ≠ "All Owners" then
      rs.filter (fun r => ownerMatches r selectedOwner)
    else rs
  match dateRange with
  | [s, e] => afterOwner.filter (fun r => Date.le s r.date && Date.le r.date e)
  | _ => afterOwner

/-- Granularity of the trend charts. -/
inductive Granularity where
  | day
  | month
  deriving DecidableEq, Repr

/-- Time-bucket selection of lines 187-211: with a two-bound range whose
bounds share year and month the trend is bucketed by calendar day, with a
two-bound range spanning several months it is bucketed by calendar month,
and with fewer than two bounds the monthly default of lines 205-211 is
used. -/
def granularity (dateRange : List Date) : Granularity :=
  match dateRange with
  | [s, e] =>
    if s.year = e.year ∧ s.month = e.month then Granularity.day
    else Granularity.month
  | _ => Granularity.month

/-- Smaller of two dates. -/
def minDate (a b : Date) : Date := if a.le b then a else b

/-- Larger of two dates. -/
def maxDate (a b : Date) : Date := if a.le b then b else a

/-- Minimum of the LQE Date column (line 135); the script evaluates it on
the nonempty loaded dataset, so the value on an empty set is irrelevant. -/
def datesMin : List Record → Date
  | [] => ⟨0, 0, 0⟩
  | r :: rest => rest.foldl (fun acc x => minDate acc x.date) r.date

/-- Maximum of the LQE Date column (line 136). -/
def datesMax : List Record → Date
  | [] => ⟨0, 0, 0⟩
  | r :: rest => rest.foldl (fun acc x => maxDate acc x.date) r.date

/-- Owner dropdown contents of lines 128-131: the distinct values of the
Owner column, a missing owner rendered as the string "Unknown".  The script
also sorts the list; the order is irrelevant to membership and is not
modelled. -/
def ownersList (rs : List Record) : List String :=
  ((rs.map (fun r => r.owner)).dedup).map
    (fun o => match o with | some s => s | none => "Unknown")

/-- Record used to instantiate witnesses, shaped like a demo-data row. -/
def demoRecord : Record :=
  { taskId := "TASK-1001"
    date := ⟨2023, 3, 15⟩
    owner := some "Owner A"
    factor := some "Internal"
    category := some "Major"
    subCategory := some "Linguistic"
    sourceText := some "Source text sample"
    translatedText := some "Translated text sample"
    correctedTextShowEdits := some "Corrected translation sample"
    errorComment := some "Error type A - Comment 1"
    remark := some "Remark 1" }

/-- Grouped count of the script (groupby with size or the Task ID count at
lines 194, 200, 225, 231, and the value_counts calls at lines 311, 323,
334, 346, 357): the distinct non-null values of a grouping key, each paired
with the number of rows carrying that value.  Pandas drops rows whose key
is NaN (groupby and value_counts default dropna=True), which filterMap
mirrors; the Task ID count agrees with the group size because Task ID is
required on every record. -/
def groupedCount {K : Type} [DecidableEq K] (key : Record → Option K)
    (rs : List Record) : List (K × Nat) :=
  let vals := rs.filterMap key
  vals.dedup.map (fun k => (k, vals.countP (fun v => decide (v = k))))

/-- Sum of the counts of an aggregation result. -/
def sumCounts {K : Type} (agg : List (K × Nat)) : Nat :=
  (agg.map (fun kv => kv.2)).sum

/-- Composite category and sub-category key of the heatmap groupby of line
294; a row with either cell missing is dropped by the groupby. -/
def catSubKey (r : Record) : Option (String × String) :=
  match r.category, r.subCategory with
  | some c, some s => some (c, s)
  | _, _ => none

/-- Sparse category by sub-category counts (line 294). -/
def catSubCounts (rs : List Record) : List ((String × String) × Nat) :=
  groupedCount catSubKey rs

/-- Row labels of the pivot table of line 295: the distinct categories
among the groups that survive the groupby. -/
def pivotRows (rs : List Record) : List String :=
  ((catSubCounts rs).map (fun kv => kv.1.1)).dedup

/-- Column labels of the pivot table of line 295. -/
def pivotCols (rs : List Record) : List String :=
  ((catSubCounts rs).map (fun kv => kv.1.2)).dedup

/-- First value stored under a key in an association list, with the default
0 of fillna(0) when the key is absent. -/
def findCount {K : Type} [DecidableEq K] (agg : List (K × Nat)) (x : K) : Nat :=
  match agg with
  | [] => 0
  | (k, n) :: rest => if x = k then n else findCount rest x

/-- Cell of the dense pivot table of line 295: the sparse count of the pair
when present, and the fillna(0) default otherwise. -/
def pivotCell (rs : List Record) (c s : String) : Nat :=
  findCount (catSubCounts rs) (c, s)

/-- Spec-side reading of the distinct observed categories of a record set:
the categories present on any record, regardless of the sub-category cell.
Stated from the words of the spec, to be compared with the pivot rows. -/
def specObservedCategories (rs : List Record) : List String :=
  (rs.filterMap (fun r => r.category)).dedup

/-- Record with a missing Internal/External factor cell. -/
def noFactorRecord : Record := { demoRecord with factor := none }

/-- Record with a category but a missing sub-category cell. -/
def noSubCatRecord : Record := { demoRecord with subCategory := none }

/-- Fixed page size of the detail pager (line 387). -/
def itemsPerPage : Nat := 10

/-- Total page count of line 388: integer division with the ceiling
adjustment (n + pageSize - 1) / pageSize. -/
def totalPages (n : Nat) : Nat := (n + itemsPerPage - 1) / itemsPerPage

/-- Page selection: the slider of line 391 restricts the requested page to
the closed interval from 1 to max 1 (totalPages n). -/
def clampPage (requested n : Nat) : Nat :=
  max 1 (min requested (max 1 (totalPages n)))

/-- Slice of the selected page (lines 392-395): the start index, the stop
index clipped to the set length, and the iloc slice between them. -/
def pageSlice (page : Nat) (rs : List Record) : List Record :=
  let start := (page - 1) * itemsPerPage
  let stop := min (start + itemsPerPage) rs.length
  (rs.drop start).take (stop - start)

/-- Rendered detail area: either the pager with its page count and the
records of the selected page, or the no-results message of line 455. -/
inductive DetailView where
  | pageView (totalPageCount : Nat) (content : List Record)
  | noResults
  deriving DecidableEq, Repr

/-- Detail area of lines 387-455: when the display set yields at least one
page the slider selects a page and its slice is rendered, otherwise the
no-results message is shown. -/
def detailArea (rs : List Record) (requestedPage : Nat) : DetailView :=
  if totalPages rs.length > 0 then
    DetailView.pageView (totalPages rs.length)
      (pageSlice (clampPage requestedPage rs.length) rs)
  else DetailView.noResults

/-- Record set of 23 identical rows, used to instantiate the pagination
witness. -/
def sample23 : List Record := List.replicate 23 demoRecord

/-- Lower-cased character list of a string; the case-insensitive matching
of str.contains with case=False is modelled by lowering both sides. -/
def lowerChars (s : String) : List Char := s.toList.map Char.toLower

/-- Match of a regular-expression pattern against the beginning of a text,
for the modelled pattern fragment: a literal character matches itself and
the dot wildcard matches any single character.  The search of lines
373-377 hands the query to str.contains, whose default regex=True treats
the query as a regular expression, not as a literal substring; a query
using any metacharacter beyond the dot is outside the modelled fragment
and is mapped by searchResults to the explicit unmodelled marker, so no
theorem of this file speaks about its behavior. -/
def reMatchAt : List Char → List Char → Bool
  | [], _ => true
  | _ :: _, [] => false
  | p :: ps, t :: ts => (p == '.' || p == t) && reMatchAt ps ts

/-- Search of a pattern anywhere in a text (re.search semantics): the
pattern must match starting at some position. -/
def reSearch (pat txt : List Char) : Bool :=
  txt.tails.any (fun suf => reMatchAt pat suf)

/-- Containment test of the script (str.contains with case=False): the
lowered query pattern searched in the lowered text. -/
def strContains (hay pat : String) : Bool :=
  reSearch (lowerChars pat) (lowerChars hay)

/-- Containment applied to an optional text cell.  The none branch exists
only for totality: searchResults diverts any record set containing a
missing searched cell to the maskError outcome before this function is
consulted, because str.contains fills NaN for a missing cell (default
na=NaN) and indexing the frame with a NaN-containing mask raises. -/
def fieldContains (v : Option String) (pat : String) : Bool :=
  match v with
  | some t => strContains t pat
  | none => false

/-- Combined search mask of lines 373-377 over the four searched
columns. -/
def searchMatches (r : Record) (q : String) : Bool :=
  fieldContains r.sourceText q || fieldContains r.translatedText q ||
    fieldContains r.errorComment q || strContains r.taskId q

/-- Regular-expression metacharacters of the Python re module. -/
def isRegexMetachar (c : Char) : Bool :=
  ['.', '^', '$', '*', '+', '?', '(', ')', '[', ']',
    '\x7b', '\x7d', '\\', '|'].contains c

/-- Outcome of the detail search for one query: a record list, the raise
caused by a NaN-containing mask, or the marker for queries outside the
modelled regex fragment. -/
inductive SearchOutcome where
  | results (rs : List Record)
  | maskError
  | unmodelled
  deriving DecidableEq, Repr

/-- Search of lines 371-381.  A falsy (empty) query leaves the filtered
set unchanged.  A non-empty query is handed to str.contains with
regex=True; the embedding models the regex fragment of literal characters
plus the dot wildcard and maps a query containing any other metacharacter
to the unmodelled marker rather than guessing its semantics.  When a
searched optional cell is missing, str.contains fills NaN into the mask
(default na=NaN) and indexing the frame with a NaN-containing mask
raises, modelled as maskError; otherwise the records whose mask is true
are kept. -/
def searchResults (rs : List Record) (q : String) : SearchOutcome :=
  if q = "" then SearchOutcome.results rs
  else if q.toList.any (fun c => isRegexMetachar c && c != '.') then
    SearchOutcome.unmodelled
  else if rs.any (fun r => r.sourceText.isNone || r.translatedText.isNone ||
      r.errorComment.isNone) then
    SearchOutcome.maskError
  else SearchOutcome.results (rs.filter (fun r => searchMatches r q))

/-- Spec-side reading of the search contract: the query appears as a
case-insensitive substring of Task ID, Source Text, Translated Text, or
the error comment; a missing cell cannot match. -/
def substrMatchSpec (r : Record) (q : String) : Prop :=
  (∃ t, r.sourceText = some t ∧ lowerChars q <:+: lowerChars t) ∨
    (∃ t, r.translatedText = some t ∧ lowerChars q <:+: lowerChars t) ∨
    (∃ t, r.errorComment = some t ∧ lowerChars q <:+: lowerChars t) ∨
    lowerChars q <:+: lowerChars r.taskId

/-- Placeholder rendering of an optional text cell in the detail view
(lines 414-448): the cell text when present, the literal placeholder
otherwise.  For the corrected-text column the script first looks for a
fuzzily named replacement column; under the fixed modelled schema that
branch cannot fire, and a missing or NaN cell falls to the same
placeholder. -/
def renderTextField (v : Option String) : String :=
  match v with
  | some t => t
  | none => "Not available"

/-- Sections of the translation block of one detail row (lines 413-452):
the four placeholder-rendered text columns, followed by the remark section
that lines 450-452 render only when the cell is present. -/
def detailSections (r : Record) : List (String × String) :=
  [("Source Text", renderTextField r.sourceText),
   ("Translated Text", renderTextField r.translatedText),
   ("Corrected Text Show Edits", renderTextField r.correctedTextShowEdits),
   ("Error Type & Comment", renderTextField r.errorComment)] ++
    (match r.remark with
     | some t => [("Remarks", t)]
     | none => [])

/-- Record with every optional text cell missing. -/
def blankTextRecord : Record :=
  { demoRecord with
    sourceText := none
    translatedText := none
    correctedTextShowEdits := none
    errorComment := none
    remark := none }

/-- Record with only the remark cell missing. -/
def noRemarkRecord : Record := { demoRecord with remark := none }

/-- Record with a missing owner cell. -/
def missingOwnerRecord : Record := { demoRecord with owner := none }

theorem Date.le_refl (a : Date) : a.le a = true := by
  simp [Date.le]

theorem Date.le_trans {a b c : Date} (h1 : a.le b = true)
    (h2 : b.le c = true) : a.le c = true := by
  simp only [Date.le, Bool.or_eq_true, Bool.and_eq_true,
    decide_eq_true_eq] at h1 h2 ⊢
  omega

theorem Date.le_total (a b : Date) : a.le b = true ∨ b.le a = true := by
  simp only [Date.le, Bool.or_eq_true, Bool.and_eq_true, decide_eq_true_eq]
  omega

theorem minDate_le_left (a b : Date) : (minDate a b).le a = true := by
  by_cases h : a.le b = true
  · simp [minDate, h, Date.le_refl]
  · simp only [minDate, h, if_false]
    rcases Date.le_total a b with h1 | h1
    · exact absurd h1 h
    · exact h1

theorem minDate_le_right (a b : Date) : (minDate a b).le b = true := by
  by_cases h : a.le b = true
  · simp only [minDate, h, if_true]
  · simp [minDate, h, Date.le_refl]

theorem left_le_maxDate (a b : Date) : a.le (maxDate a b) = true := by
  by_cases h : a.le b = true
  · simp only [maxDate, h, if_true]
  · simp [maxDate, h, Date.le_refl]

theorem right_le_maxDate (a b : Date) : b.le (maxDate a b) = true := by
  by_cases h : a.le b = true
  · simp [maxDate, h, Date.le_refl]
  · simp only [maxDate, h, if_false]
    rcases Date.le_total a b with h1 | h1
    · exact absurd h1 h
    · exact h1

theorem foldl_minDate_le (l : List Record) :
    ∀ d : Date, (l.foldl (fun acc x => minDate acc x.date) d).le d = true ∧
      ∀ r ∈ l, (l.foldl (fun acc x => minDate acc x.date) d).le r.date = true := by
  induction l with
  | nil => exact fun d => ⟨Date.le_refl d, by simp⟩
  | cons x l ih =>
    intro d
    simp only [List.foldl_cons]
    obtain ⟨h1, h2⟩ := ih (minDate d x.date)
    refine ⟨Date.le_trans h1 (minDate_le_left d x.date), ?_⟩
    intro r hr
    rcases List.mem_cons.mp hr with rfl | hr
    · exact Date.le_trans h1 (minDate_le_right d r.date)
    · exact h2 r hr

theorem foldl_le_maxDate (l : List Record) :
    ∀ d : Date, d.le (l.foldl (fun acc x => maxDate acc x.date) d) = true ∧
      ∀ r ∈ l, r.date.le (l.foldl (fun acc x => maxDate acc x.date) d) = true := by
  induction l with
  | nil => exact fun d => ⟨Date.le_refl d, by simp⟩
  | cons x l ih =>
    intro d
    simp only [List.foldl_cons]
    obtain ⟨h1, h2⟩ := ih (maxDate d x.date)
    refine ⟨Date.le_trans (left_le_maxDate d x.date) h1, ?_⟩
    intro r hr
    rcases List.mem_cons.mp hr with rfl | hr
    · exact Date.le_trans (right_le_maxDate d r.date) h1
    · exact h2 r hr

theorem datesMin_le {rs : List Record} {r : Record} (hr : r ∈ rs) :
    (datesMin rs).le r.date = true := by
  cases rs with
  | nil => cases hr
  | cons x l =>
    rcases List.mem_cons.mp hr with rfl | hr
    · exact (foldl_minDate_le l r.date).1
    · exact (foldl_minDate_le l x.date).2 r hr

theorem le_datesMax {rs : List Record} {r : Record} (hr : r ∈ rs) :
    r.date.le (datesMax rs) = true := by
  cases rs with
  | nil => cases hr
  | cons x l =>
    rcases List.mem_cons.mp hr with rfl | hr
    · exact (foldl_le_maxDate l r.date).1
    · exact (foldl_le_maxDate l x.date).2 r hr


/-- C1: time-bucket selection.  A two-bound date range whose bounds share
year and month selects daily bucketing, a two-bound range whose bounds
differ in month or year selects monthly bucketing, and a range with fewer
than two bounds selects the monthly default. -/
theorem timeBucket_selection :
    (∀ s e : Date, s.year = e.year → s.month = e.month →
        granularity [s, e] = Granularity.day) ∧
    (∀ s e : Date, ¬(s.year = e.year ∧ s.month = e.month) →
        granularity [s, e] = Granularity.month) ∧
    (∀ dr : List Date, dr.length ≠ 2 → granularity dr = Granularity.month) := by
  refine ⟨?_, ?_, ?_⟩
  · intro s e hy hm
    simp [granularity, hy, hm]
  · intro s e h
    simp [granularity, h]
  · intro dr h
    match dr with
    | [] => rfl
    | [_] => rfl
    | [_, _] => exact absurd rfl h
    | _ :: _ :: _ :: _ => rfl

/-- Witness for timeBucket_selection at concrete ranges. -/
theorem timeBucket_selection_witness :
    granularity [⟨2023, 3, 1⟩, ⟨2023, 3, 28⟩] = Granularity.day ∧
    granularity [⟨2023, 1, 15⟩, ⟨2023, 3, 15⟩] = Granularity.month ∧
    granularity [] = Granularity.month :=
  ⟨timeBucket_selection.1 ⟨2023, 3, 1⟩ ⟨2023, 3, 28⟩ rfl rfl,
   timeBucket_selection.2.1 ⟨2023, 1, 15⟩ ⟨2023, 3, 15⟩ (by decide),
   timeBucket_selection.2.2 [] (by decide)⟩

/-- C2: filter operation with a specific owner selected.  With a two-bound
range the output is exactly the records whose owner equals the selection
and whose date lies inclusively between the bounds; with a range that does
not have exactly two bounds the range filter is skipped and only the owner
filter applies; the empty record set yields the empty result and no
error. -/
theorem filter_operation (rs : List Record) (sel : String)
    (hsel : sel ≠ "All Owners") :
    (∀ s e r, r ∈ applyFilters rs sel [s, e] ↔
        r ∈ rs ∧ ownerMatches r sel = true ∧
          Date.le s r.date = true ∧ Date.le r.date e = true) ∧
    (∀ dr : List Date, dr.length ≠ 2 →
        applyFilters rs sel dr = rs.filter (fun r => ownerMatches r sel)) ∧
    (∀ s e : Date, applyFilters [] sel [s, e] = []) := by
  refine ⟨?_, ?_, ?_⟩
  · intro s e r
    simp only [applyFilters, hsel, ne_eq, not_false_eq_true, if_true,
      List.mem_filter, Bool.and_eq_true]
    tauto
  · intro dr h
    match dr with
    | [] => simp [applyFilters, hsel]
    | [_] => simp [applyFilters, hsel]
    | [_, _] => exact absurd rfl h
    | _ :: _ :: _ :: _ => simp [applyFilters, hsel]
  · intro s e
    simp [applyFilters]

/-- Witness for filter_operation: a matching record is kept by the combined
owner and date filter. -/
theorem filter_operation_witness :
    demoRecord ∈
      applyFilters [demoRecord] "Owner A" [⟨2023, 1, 1⟩, ⟨2023, 12, 31⟩] :=
  ((filter_operation [demoRecord] "Owner A" (by decide)).1
    ⟨2023, 1, 1⟩ ⟨2023, 12, 31⟩ demoRecord).mpr (by decide)

/-- C3: with the sentinel "All Owners" selected and the default full-span
date range (minimum to maximum of the LQE Date column) the filter returns
the record set unchanged. -/
theorem filter_allOwners_id (rs : List Record) (_h : rs ≠ []) :
    applyFilters rs "All Owners" [datesMin rs, datesMax rs] = rs := by
  have : applyFilters rs "All Owners" [datesMin rs, datesMax rs] =
      rs.filter (fun r => Date.le (datesMin rs) r.date &&
        Date.le r.date (datesMax rs)) := by
    simp [applyFilters]
  rw [this]
  refine List.filter_eq_self.mpr ?_
  intro r hr
  simp only [Bool.and_eq_true]
  exact ⟨datesMin_le hr, le_datesMax hr⟩

/-- Witness for filter_allOwners_id on a one-record set. -/
theorem filter_allOwners_id_witness :
    applyFilters [demoRecord] "All Owners"
      [datesMin [demoRecord], datesMax [demoRecord]] = [demoRecord] :=
  filter_allOwners_id [demoRecord] (by decide)


theorem length_filterMap_isSome {K : Type} (key : Record → Option K)
    (rs : List Record) :
    (rs.filterMap key).length = rs.countP (fun r => (key r).isSome) := by
  induction rs with
  | nil => rfl
  | cons x l ih =>
    cases hx : key x with
    | none => simp [List.filterMap_cons, hx, List.countP_cons, ih]
    | some v => simp [List.filterMap_cons, hx, List.countP_cons, ih]

theorem countP_filterMap {K : Type} (key : Record → Option K) (p : K → Bool)
    (rs : List Record) :
    (rs.filterMap key).countP p =
      rs.countP (fun r => ((key r).map p).getD false) := by
  induction rs with
  | nil => rfl
  | cons x l ih =>
    cases hx : key x with
    | none => simp [List.filterMap_cons, hx, List.countP_cons, ih]
    | some v => simp [List.filterMap_cons, hx, List.countP_cons, ih]

theorem findCount_graph {K : Type} [DecidableEq K] (f : K → Nat)
    (ks : List K) (x : K) :
    findCount (ks.map (fun k => (k, f k))) x = if x ∈ ks then f x else 0 := by
  induction ks with
  | nil => rfl
  | cons k ks ih =>
    by_cases hxk : x = k
    · subst hxk
      simp [findCount]
    · simp [findCount, hxk, ih]

theorem catSubKey_eq_some {r : Record} {p : String × String} :
    catSubKey r = some p ↔
      r.category = some p.1 ∧ r.subCategory = some p.2 := by
  unfold catSubKey
  cases hc : r.category <;> cases hs : r.subCategory <;>
    simp [Prod.ext_iff]

theorem pivotCell_eq_count (rs : List Record) (c s : String) :
    pivotCell rs c s =
      rs.countP (fun r =>
        r.category == some c && r.subCategory == some s) := by
  have hmatch : ∀ r : Record,
      (((catSubKey r).map (fun k => decide (k = (c, s)))).getD false) =
        (r.category == some c && r.subCategory == some s) := by
    intro r
    unfold catSubKey
    cases hc : r.category <;> cases hs : r.subCategory <;>
      simp [Prod.ext_iff, Bool.beq_eq_decide_eq]
  have hkey : rs.countP
      (fun r => ((catSubKey r).map (fun k => decide (k = (c, s)))).getD false) =
      rs.countP (fun r =>
        r.category == some c && r.subCategory == some s) :=
    congrArg (fun p => rs.countP p) (funext hmatch)
  simp only [pivotCell, catSubCounts, groupedCount]
  rw [findCount_graph]
  by_cases hm : (c, s) ∈ (rs.filterMap catSubKey).dedup
  · rw [if_pos hm, countP_filterMap]
    exact hkey
  · rw [if_neg hm]
    have hz : (rs.filterMap catSubKey).countP
        (fun v => decide (v = (c, s))) = 0 := by
      refine List.countP_eq_zero.mpr ?_
      intro v hv
      simp only [decide_eq_true_eq]
      intro hveq
      exact hm (List.mem_dedup.mpr (hveq ▸ hv))
    rw [countP_filterMap] at hz
    exact hz.symm.trans hkey

/-- C4 (amended): the sum of all counts of a grouped count equals the
number of records whose grouping key is present, since the pandas
aggregation drops records with a missing key; when every record carries
the grouping key, in particular for the required date-bucket keys of the
trend charts, the sum equals the size of the input set. -/
theorem groupedCount_sum (K : Type) [DecidableEq K] (key : Record → Option K)
    (rs : List Record) :
    sumCounts (groupedCount key rs) =
        rs.countP (fun r => (key r).isSome) ∧
    ((∀ r ∈ rs, (key r).isSome = true) →
        sumCounts (groupedCount key rs) = rs.length) := by
  have h1 : sumCounts (groupedCount key rs) = (rs.filterMap key).length := by
    simp only [sumCounts, groupedCount, List.map_map]
    exact List.sum_map_count_dedup_eq_length (rs.filterMap key)
  constructor
  · rw [h1, length_filterMap_isSome]
  · intro hall
    rw [h1, length_filterMap_isSome, List.countP_eq_length.mpr hall]

/-- Witness for groupedCount_sum: the factor counts of a one-record set
with a present factor cell sum to the set size. -/
theorem groupedCount_sum_witness :
    sumCounts (groupedCount (fun r => r.factor) [demoRecord]) = 1 :=
  (groupedCount_sum String (fun r => r.factor) [demoRecord]).2 (by decide)

/-- C4 counterexample: grouping a one-record set by the factor column when
the factor cell is missing.  The value_counts call of line 311 drops the
NaN row, so the counts sum to 0 while the input set has one record. -/
theorem groupedCount_sum_cex :
    sumCounts (groupedCount (fun r => r.factor) [noFactorRecord]) = 0 ∧
    ([noFactorRecord] : List Record).length = 1 := by
  constructor <;> rfl

/-- C5 (amended): the pivot rows are exactly the distinct categories and
the pivot columns exactly the distinct sub-categories observed among the
records that carry both cells (the groupby drops the others); every cell
counts the records matching both labels, hence is non-negative, and a
label pair matched by no record holds exactly 0. -/
theorem heatmap_spec (rs : List Record) :
    (pivotRows rs).Nodup ∧ (pivotCols rs).Nodup ∧
    (∀ c, c ∈ pivotRows rs ↔
        ∃ r ∈ rs, r.category = some c ∧ r.subCategory.isSome = true) ∧
    (∀ s, s ∈ pivotCols rs ↔
        ∃ r ∈ rs, r.subCategory = some s ∧ r.category.isSome = true) ∧
    (∀ c s, pivotCell rs c s =
        rs.countP (fun r =>
          r.category == some c && r.subCategory == some s)) ∧
    (∀ c s, (∀ r ∈ rs, ¬(r.category = some c ∧ r.subCategory = some s)) →
        pivotCell rs c s = 0) := by
  refine ⟨List.nodup_dedup _, List.nodup_dedup _, ?_, ?_, pivotCell_eq_count rs, ?_⟩
  · intro c
    simp only [pivotRows, catSubCounts, groupedCount, List.mem_dedup,
      List.map_map, List.mem_map, List.mem_filterMap, Function.comp]
    constructor
    · rintro ⟨p, ⟨r, hr, hk⟩, hp⟩
      obtain ⟨h1, h2⟩ := catSubKey_eq_some.mp hk
      refine ⟨r, hr, ?_, ?_⟩
      · rw [h1, hp]
      · rw [h2]
        rfl
    · rintro ⟨r, hr, hc, hs⟩
      cases hsv : r.subCategory with
      | none =>
        rw [hsv] at hs
        simp at hs
      | some sv =>
        exact ⟨(c, sv), ⟨r, hr, catSubKey_eq_some.mpr ⟨hc, hsv⟩⟩, rfl⟩
  · intro s
    simp only [pivotCols, catSubCounts, groupedCount, List.mem_dedup,
      List.map_map, List.mem_map, List.mem_filterMap, Function.comp]
    constructor
    · rintro ⟨p, ⟨r, hr, hk⟩, hp⟩
      obtain ⟨h1, h2⟩ := catSubKey_eq_some.mp hk
      refine ⟨r, hr, ?_, ?_⟩
      · rw [h2, hp]
      · rw [h1]
        rfl
    · rintro ⟨r, hr, hs, hc⟩
      cases hcv : r.category with
      | none =>
        rw [hcv] at hc
        simp at hc
      | some cv =>
        exact ⟨(cv, s), ⟨r, hr, catSubKey_eq_some.mpr ⟨hcv, hs⟩⟩, rfl⟩
  · intro c s hnone
    rw [pivotCell_eq_count]
    refine List.countP_eq_zero.mpr ?_
    intro r hr
    simp only [Bool.and_eq_true, beq_iff_eq]
    intro hcontra
    exact hnone r hr ⟨hcontra.1, hcontra.2⟩

/-- Witness for heatmap_spec: the observed pair of the demo record counts
one match, and an unobserved pair holds exactly 0. -/
theorem heatmap_spec_witness :
    pivotCell [demoRecord] "Major" "Linguistic" =
      List.countP (fun r =>
        r.category == some "Major" && r.subCategory == some "Linguistic")
        [demoRecord] ∧
    pivotCell [demoRecord] "Minor" "Technical" = 0 :=
  ⟨(heatmap_spec [demoRecord]).2.2.2.2.1 "Major" "Linguistic",
   (heatmap_spec [demoRecord]).2.2.2.2.2 "Minor" "Technical" (by decide)⟩

/-- C5 counterexample: with one record whose sub-category cell is missing,
the groupby of line 294 drops the row, so the pivot table has no row
labels at all even though the category Major is observed in the set. -/
theorem heatmap_rows_cex :
    pivotRows [noSubCatRecord] = [] ∧
    specObservedCategories [noSubCatRecord] = ["Major"] := by
  constructor <;> rfl


/-- C6: pagination.  For a nonempty record set the total page count is the
ceiling of count / 10, characterized as the least number of ten-record
pages covering the set; the requested page is clamped to the interval
from 1 to max 1 totalPages; the returned slice is the ten-position window
starting at (page - 1) * 10, clipped to the bounds of the set; and for 23
records there are 3 pages, page 3 holds exactly 3 records, and a
requested page 5 is clamped to 3. -/
theorem pagination_spec (rs : List Record) (hn : 0 < rs.length) :
    (rs.length ≤ itemsPerPage * totalPages rs.length ∧
      itemsPerPage * (totalPages rs.length - 1) < rs.length) ∧
    (∀ p, 1 ≤ clampPage p rs.length ∧
      clampPage p rs.length ≤ max 1 (totalPages rs.length)) ∧
    (∀ p, pageSlice p rs =
      (rs.drop ((p - 1) * itemsPerPage)).take itemsPerPage) ∧
    (rs.length = 23 →
      totalPages rs.length = 3 ∧ (pageSlice 3 rs).length = 3 ∧
        clampPage 5 rs.length = 3) := by
  refine ⟨?_, ?_, ?_, ?_⟩
  · simp only [totalPages, itemsPerPage]
    omega
  · intro p
    simp only [clampPage]
    omega
  · intro p
    simp only [pageSlice]
    by_cases hle : (p - 1) * itemsPerPage + itemsPerPage ≤ rs.length
    · rw [min_eq_left hle]
      congr 1
      omega
    · have h1 : rs.length ≤ (p - 1) * itemsPerPage + itemsPerPage := by omega
      rw [min_eq_right h1]
      rw [List.take_of_length_le, List.take_of_length_le]
      · rw [List.length_drop]
        omega
      · rw [List.length_drop]
  · intro h23
    refine ⟨?_, ?_, ?_⟩
    · rw [h23]
      rfl
    · simp only [pageSlice, List.length_take, List.length_drop, h23,
        itemsPerPage]
      omega
    · rw [h23]
      rfl

/-- Witness for pagination_spec on the 23-record sample set. -/
theorem pagination_spec_witness :
    totalPages sample23.length = 3 ∧ (pageSlice 3 sample23).length = 3 ∧
      clampPage 5 sample23.length = 3 :=
  (pagination_spec sample23 (by simp [sample23])).2.2.2 (by simp [sample23])

/-- C7 (amended): a record set of zero records yields a page count of
zero, so the pager block is skipped and the no-results message is
rendered in its place; no division fault can occur since the page size is
the constant 10. -/
theorem pager_empty (p : Nat) :
    detailArea [] p = DetailView.noResults ∧
    totalPages (List.length ([] : List Record)) = 0 := by
  constructor <;> rfl

/-- C7 counterexample: the page count computed by line 388 for an empty
record set is 0, not the single page stated by the claim. -/
theorem pager_empty_cex :
    detailArea [] 1 = DetailView.noResults ∧
    totalPages (List.length ([] : List Record)) = 0 ∧
    totalPages (List.length ([] : List Record)) ≠ 1 := by
  refine ⟨rfl, rfl, ?_⟩
  decide


theorem reMatchAt_eq_isPrefixOf (pat : List Char)
    (hpat : ∀ ch ∈ pat, ch ≠ '.') :
    ∀ txt, reMatchAt pat txt = pat.isPrefixOf txt := by
  induction pat with
  | nil =>
    intro txt
    cases txt <;> rfl
  | cons p ps ih =>
    intro txt
    cases txt with
    | nil => rfl
    | cons t ts =>
      have hp : (p == '.') = false :=
        beq_eq_false_iff_ne.mpr (hpat p (List.mem_cons_self p ps))
      have hps : ∀ ch ∈ ps, ch ≠ '.' :=
        fun ch hch => hpat ch (List.mem_cons_of_mem p hch)
      simp only [reMatchAt, List.isPrefixOf, ih hps, hp, Bool.false_or]

theorem reSearch_iff_infix (pat txt : List Char)
    (hpat : ∀ ch ∈ pat, ch ≠ '.') :
    reSearch pat txt = true ↔ pat <:+: txt := by
  unfold reSearch
  rw [List.any_eq_true]
  constructor
  · rintro ⟨suf, hmem, hm⟩
    rw [reMatchAt_eq_isPrefixOf pat hpat] at hm
    exact List.infix_iff_prefix_suffix.mpr
      ⟨suf, List.isPrefixOf_iff_prefix.mp hm, (List.mem_tails _ _).mp hmem⟩
  · intro hinf
    obtain ⟨t, hpre, hsuf⟩ := List.infix_iff_prefix_suffix.mp hinf
    exact ⟨t, (List.mem_tails _ _).mpr hsuf,
      by
        rw [reMatchAt_eq_isPrefixOf pat hpat]
        exact List.isPrefixOf_iff_prefix.mpr hpre⟩

theorem fieldContains_iff {q : String} (hq : ∀ ch ∈ lowerChars q, ch ≠ '.')
    (v : Option String) :
    fieldContains v q = true ↔
      ∃ t, v = some t ∧ lowerChars q <:+: lowerChars t := by
  cases v with
  | none => simp [fieldContains]
  | some t0 => simp [fieldContains, strContains, reSearch_iff_infix _ _ hq]

theorem toNat_ofNat_valid {n : Nat} (h : n.isValidChar) :
    (Char.ofNat n).toNat = n := by
  rw [Char.ofNat, dif_pos h]
  rfl

theorem toLower_ne_dot {c : Char} (h : c ≠ '.') : c.toLower ≠ '.' := by
  have hdef : c.toLower =
      if c.toNat ≥ 65 ∧ c.toNat ≤ 90 then Char.ofNat (c.toNat + 32) else c :=
    rfl
  rw [hdef]
  split
  · next hcond =>
    intro heq
    have hv : (c.toNat + 32).isValidChar := Or.inl (by omega)
    have htn := congrArg Char.toNat heq
    rw [toNat_ofNat_valid hv] at htn
    rw [show Char.toNat '.' = 46 from rfl] at htn
    omega
  · exact h

/-- C8 (amended): the search treats the query as a case-insensitive
regular-expression pattern (the pandas str.contains default regex=True),
not as a literal substring.  For queries containing no regex
metacharacters, over record sets whose searched cells are all present,
the result is exactly the records in which the query appears as a
case-insensitive substring of Task ID, Source Text, Translated Text, or
the error comment; the empty query returns the filtered set unchanged;
and a non-empty query over a record set with a missing searched cell
raises at the mask indexing instead of returning records. -/
theorem search_spec (rs : List Record) (q : String)
    (hq : ∀ ch ∈ q.toList, isRegexMetachar ch = false)
    (hcells : ∀ r ∈ rs, r.sourceText.isSome = true ∧
      r.translatedText.isSome = true ∧ r.errorComment.isSome = true) :
    searchResults rs "" = SearchOutcome.results rs ∧
    (∃ out, searchResults rs q = SearchOutcome.results out ∧
      ∀ r, r ∈ out ↔ r ∈ rs ∧ substrMatchSpec r q) ∧
    (∀ rs2 : List Record, q ≠ "" →
      (∃ r ∈ rs2, r.sourceText = none ∨ r.translatedText = none ∨
        r.errorComment = none) →
      searchResults rs2 q = SearchOutcome.maskError) := by
  have hdot : ∀ ch ∈ lowerChars q, ch ≠ '.' := by
    intro ch hch
    simp only [lowerChars, List.mem_map] at hch
    obtain ⟨c, hc, rfl⟩ := hch
    have hmeta := hq c hc
    have hcd : c ≠ '.' := by
      intro hcc
      subst hcc
      simp [isRegexMetachar] at hmeta
    exact toLower_ne_dot hcd
  have hnometa :
      (q.toList.any (fun c => isRegexMetachar c && c != '.')) = false := by
    rw [List.any_eq_false]
    intro c hc
    simp [hq c hc]
  have hm : ∀ r : Record, searchMatches r q = true ↔ substrMatchSpec r q := by
    intro r
    simp only [searchMatches, Bool.or_eq_true, fieldContains_iff hdot,
      substrMatchSpec, strContains, reSearch_iff_infix _ _ hdot]
    rw [or_assoc, or_assoc]
  refine ⟨rfl, ?_, ?_⟩
  · by_cases h0 : q = ""
    · subst h0
      refine ⟨rs, rfl, ?_⟩
      intro r
      constructor
      · intro hr
        exact ⟨hr, Or.inr (Or.inr (Or.inr List.nil_infix))⟩
      · rintro ⟨hr, _⟩
        exact hr
    · have hnomiss : (rs.any (fun r => r.sourceText.isNone ||
          r.translatedText.isNone || r.errorComment.isNone)) = false := by
        rw [List.any_eq_false]
        intro r hr
        obtain ⟨h1, h2, h3⟩ := hcells r hr
        simp only [Bool.or_eq_true, Option.isNone_iff_eq_none, not_or]
        refine ⟨⟨?_, ?_⟩, ?_⟩ <;> intro hx
        · rw [hx] at h1
          cases h1
        · rw [hx] at h2
          cases h2
        · rw [hx] at h3
          cases h3
      refine ⟨rs.filter (fun r => searchMatches r q), ?_, ?_⟩
      · simp only [searchResults, if_neg h0, hnometa, hnomiss,
          Bool.false_eq_true, if_false]
      · intro r
        rw [List.mem_filter, hm r]
  · intro rs2 hne hmiss
    have hmiss2 : (rs2.any (fun r => r.sourceText.isNone ||
        r.translatedText.isNone || r.errorComment.isNone)) = true := by
      rw [List.any_eq_true]
      obtain ⟨r, hr, hcase⟩ := hmiss
      refine ⟨r, hr, ?_⟩
      rcases hcase with h | h | h <;> simp [h]
    simp only [searchResults, if_neg hne, hnometa, hmiss2,
      Bool.false_eq_true, if_false, if_true]

/-- Witness for search_spec: the empty query is the identity, the
membership contract holds for the metacharacter-free query task, and a
set with missing searched cells makes the same query raise. -/
theorem search_spec_witness :
    searchResults [demoRecord] "" = SearchOutcome.results [demoRecord] ∧
    (∃ out, searchResults [demoRecord] "task" = SearchOutcome.results out ∧
      ∀ r, r ∈ out ↔ r ∈ [demoRecord] ∧ substrMatchSpec r "task") ∧
    searchResults [blankTextRecord] "task" = SearchOutcome.maskError :=
  ⟨(search_spec [demoRecord] "task" (by decide) (by decide)).1,
   (search_spec [demoRecord] "task" (by decide) (by decide)).2.1,
   (search_spec [demoRecord] "task" (by decide) (by decide)).2.2
     [blankTextRecord] (by decide)
     ⟨blankTextRecord, List.mem_cons_self _ _, Or.inl rfl⟩⟩

/-- C8 counterexample: the one-character query consisting of the regex
dot wildcard.  None of the searched cells of the demo record contains a
literal dot, so a substring search finds nothing, yet the script keeps
the record because the dot matches any character under regex=True. -/
theorem search_regex_cex :
    searchResults [demoRecord] "." = SearchOutcome.results [demoRecord] ∧
    ¬ substrMatchSpec demoRecord "." := by
  constructor
  · decide
  · intro h
    rcases h with ⟨t, ht, hinf⟩ | ⟨t, ht, hinf⟩ | ⟨t, ht, hinf⟩ | hinf
    · rw [show demoRecord.sourceText = some "Source text sample" from rfl]
        at ht
      cases ht
      exact absurd hinf (by decide)
    · rw [show demoRecord.translatedText =
          some "Translated text sample" from rfl] at ht
      cases ht
      exact absurd hinf (by decide)
    · rw [show demoRecord.errorComment =
          some "Error type A - Comment 1" from rfl] at ht
      cases ht
      exact absurd hinf (by decide)
    · exact absurd hinf (by decide)

/-- C9 (amended): in the detail view each of the four placeholder-rendered
text columns (source text, translated text, corrected text, error comment)
renders the literal placeholder when its cell is absent or null, and
rendering is total, so it never raises; the remark column is the
exception: a missing remark renders no section at all rather than the
placeholder. -/
theorem missing_field_rendering (r : Record) :
    (r.sourceText = none →
      ("Source Text", "Not available") ∈ detailSections r) ∧
    (r.translatedText = none →
      ("Translated Text", "Not available") ∈ detailSections r) ∧
    (r.correctedTextShowEdits = none →
      ("Corrected Text Show Edits", "Not available") ∈ detailSections r) ∧
    (r.errorComment = none →
      ("Error Type & Comment", "Not available") ∈ detailSections r) ∧
    (r.remark = none →
      (detailSections r).filter (fun kv => kv.1 == "Remarks") = []) := by
  refine ⟨?_, ?_, ?_, ?_, ?_⟩
  · intro h
    simp [detailSections, renderTextField, h]
  · intro h
    simp [detailSections, renderTextField, h]
  · intro h
    simp [detailSections, renderTextField, h]
  · intro h
    simp [detailSections, renderTextField, h]
  · intro h
    simp only [detailSections, h]
    rfl

/-- Witness for missing_field_rendering on a record with every optional
text cell missing. -/
theorem missing_field_rendering_witness :
    ("Source Text", "Not available") ∈ detailSections blankTextRecord ∧
    (detailSections blankTextRecord).filter
      (fun kv => kv.1 == "Remarks") = [] :=
  ⟨(missing_field_rendering blankTextRecord).1 rfl,
   (missing_field_rendering blankTextRecord).2.2.2.2 rfl⟩

/-- C9 counterexample: a record whose remark cell is missing renders no
remark section at all, so this free-text column does not render the
placeholder stated by the claim. -/
theorem missing_remark_cex :
    noRemarkRecord.remark = none ∧
    ("Remarks", "Not available") ∉ detailSections noRemarkRecord ∧
    (detailSections noRemarkRecord).filter
      (fun kv => kv.1 == "Remarks") = [] := by
  refine ⟨rfl, ?_, rfl⟩
  decide

/-- C10: evaluation of the code at the failing input.  A record with a
missing owner cell puts the label Unknown into the owner dropdown (lines
128-131), yet selecting Unknown filters with an equality test that a
missing cell never satisfies (line 142), so the filter returns the empty
set instead of the missing-owner records. -/
theorem unknown_owner_filter :
    "Unknown" ∈ ownersList [missingOwnerRecord] ∧
    applyFilters [missingOwnerRecord] "Unknown"
      [missingOwnerRecord.date, missingOwnerRecord.date] = [] ∧
    [missingOwnerRecord].filter (fun r => r.owner.isNone) =
      [missingOwnerRecord] := by
  refine ⟨?_, ?_, ?_⟩ <;> decide

end Quality
